import Mathlib

/-!
Verification of the two transaction-observing ProseMirror plugins of this
repository: the character/word counter with its edit-blocking policy
(src/plugin-word-count.ts) and the table-of-contents extractor with its
incremental render (src/plugin-toc.ts).

The document model is a shallow embedding of the ProseMirror node tree as
instantiated by the schema in src/main.tsx: the document is a list of
top-level block nodes; textblocks (paragraph, heading, code_block) carry
inline content; block containers (blockquote, highlightBlock, the list
nodes) carry block content; horizontal_rule is a block leaf; image,
hard_break and dino are inline leaves; text nodes carry a string.
Only headings read their attrs (level, id), so the attrs record carries
exactly those two fields.

Framework operations that the plugins call (Node.textBetween, Node.nodeSize,
Node.textContent) are modelled from their documented prosemirror-model
semantics; the framework mutation Transaction.deleteRange is kept abstract:
every statement about the trim step quantifies over it.
-/

/-- Attributes of a node as read by the plugins: the heading schema declares
a numeric level (1 to 6) and a string id. -/
structure PMAttrs where
  level : Nat
  id : String
deriving DecidableEq

/-- ProseMirror node tree, specialised to the node kinds the repository
schema declares. textblock covers paragraph, heading and code_block
(inline content); blockCont covers blockquote, highlightBlock and the
list nodes (block content); blockLeaf covers horizontal_rule; inlineLeaf
covers image, hard_break and dino; text is a text node. -/
inductive PMNode where
  | text (s : String)
  | inlineLeaf (name : String)
  | blockLeaf (name : String)
  | textblock (name : String) (attrs : PMAttrs) (children : List PMNode)
  | blockCont (name : String) (children : List PMNode)

/-- The document node: its direct children are the top-level blocks. -/
structure PMDoc where
  children : List PMNode

mutual

/-- ProseMirror Node.nodeSize: text nodes measure their string length,
other leaves measure 1, nodes with content measure content size plus 2
for the open and close tokens. -/
def nodeSize : PMNode → Nat
  | .text s => s.length
  | .inlineLeaf _ => 1
  | .blockLeaf _ => 1
  | .textblock _ _ cs => 2 + fragSize cs
  | .blockCont _ cs => 2 + fragSize cs

/-- ProseMirror Fragment.size: the sum of the sizes of the child nodes. -/
def fragSize : List PMNode → Nat
  | [] => 0
  | n :: rest => nodeSize n + fragSize rest

end

/-- Separator insertion step of Node.textBetween: on the first separating
block nothing is emitted and the first flag is cleared, afterwards the
block separator string is appended. -/
def tbSep (bs : String) (acc : String × Bool) : String × Bool :=
  if acc.2 then (acc.1, false) else (acc.1 ++ bs, false)

mutual

/-- Model of prosemirror-model Node.textBetween over the full node range,
threading the accumulated text and the first-block flag through a pre-order
walk. The empty string stands for an absent (undefined) blockSeparator or
leafText argument, matching JavaScript string truthiness: a separator is
emitted before a textblock, or before a block leaf whose leaf text is
non-empty, only when the blockSeparator is non-empty; leaves contribute the
leafText (the schema declares no node-level leafText fallback). -/
def tbNode (bs ls : String) : PMNode → String × Bool → String × Bool
  | .text s, acc => (acc.1 ++ s, acc.2)
  | .inlineLeaf _, acc => (acc.1 ++ ls, acc.2)
  | .blockLeaf _, acc =>
    let acc1 := if ls ≠ "" ∧ bs ≠ "" then tbSep bs acc else acc
    (acc1.1 ++ ls, acc1.2)
  | .textblock _ _ cs, acc =>
    let acc1 := if bs ≠ "" then tbSep bs acc else acc
    tbFrag bs ls cs acc1
  | .blockCont _ cs, acc => tbFrag bs ls cs acc

/-- Fold of tbNode over a fragment, left to right. -/
def tbFrag (bs ls : String) : List PMNode → String × Bool → String × Bool
  | [], acc => acc
  | n :: rest, acc => tbFrag bs ls rest (tbNode bs ls n acc)

end

/-- Node.textBetween(0, doc.content.size, bs, ls) on the document node:
the walk starts at the top-level blocks with empty text and the first
flag set. -/
def textBetweenAll (bs ls : String) (d : PMDoc) : String :=
  (tbFrag bs ls d.children ("", true)).1

mutual

/-- ProseMirror Node.textContent: concatenation of the text of all
descendant text nodes, with no separators (textBetween with empty
blockSeparator and leafText). -/
def textContent : PMNode → String
  | .text s => s
  | .inlineLeaf _ => ""
  | .blockLeaf _ => ""
  | .textblock _ _ cs => textContentFrag cs
  | .blockCont _ cs => textContentFrag cs

/-- Concatenated textContent of a fragment. -/
def textContentFrag : List PMNode → String
  | [] => ""
  | n :: rest => textContent n ++ textContentFrag rest

end

namespace WordCount

/-- The mode option of the word-count plugin (src/plugin-word-count.ts,
WordCountOptions.mode). -/
inductive Mode where
  | textSize
  | nodeSize
deriving DecidableEq

/-- Options of the word-count plugin. The limit is a JavaScript
number-or-null-or-undefined; none models null and undefined. -/
structure Options where
  limit : Option Int
  mode : Mode

/-- The slice of a ProseMirror transaction that the word-count plugin
reads: the post-edit document (transaction.doc), the resulting selection
head position (transaction.selection.$head.pos), the truthiness of the
paste meta entry (transaction.getMeta of paste), and whether the document
changed (transaction.docChanged). -/
structure Transaction where
  doc : PMDoc
  headPos : Nat
  pasteMeta : Bool
  docChanged : Bool

/-- Type of the framework mutation Transaction.deleteRange, kept abstract:
it receives the current document and the two range end positions as
JavaScript numbers (possibly negative, hence Int) and yields the document
of the mutated transaction. -/
def DeleteRangeFn : Type := PMDoc → Int → Int → PMDoc

/-- WordCount.characters (src/plugin-word-count.ts lines 79 to 89): under
textSize the length of node.textBetween(0, node.content.size, undefined,
one space); otherwise node.nodeSize of the document node, which is its
content size plus 2. -/
def characters (mode : Mode) (d : PMDoc) : Nat :=
  match mode with
  | .textSize => (textBetweenAll "" " " d).length
  | .nodeSize => 2 + fragSize d.children

/-- Model of String.prototype.split with a single-space separator: the
pieces between the space characters, in order, empties included. -/
def splitSp : List Char → List (List Char)
  | [] => [[]]
  | c :: rest =>
    match splitSp rest with
    | [] => [[]]
    | p :: ps => if c = ' ' then [] :: p :: ps else (c :: p) :: ps

/-- WordCount.words (src/plugin-word-count.ts lines 91 to 96): split the
space-separated flattened text on single spaces and count the non-empty
pieces. -/
def words (d : PMDoc) : Nat :=
  ((splitSp (textBetweenAll " " " " d).data).filter (fun w => w ≠ [])).length

/-- Storage object of the plugin state. -/
structure Storage where
  characters : Nat
  words : Nat
deriving DecidableEq

/-- WordCount.calcStorage (src/plugin-word-count.ts lines 25 to 30). -/
def calcStorage (mode : Mode) (d : PMDoc) : Storage :=
  { characters := characters mode d, words := words d }

/-- The deletion range computed by the paste-trim step
(src/plugin-word-count.ts lines 61 to 64): from = pos - over and to = pos,
where pos is the selection head of the pending transaction and
over = newSize - limit, in JavaScript number arithmetic. -/
def trimRange (limit : Int) (newSize : Nat) (pos : Nat) : Int × Int :=
  ((pos : Int) - ((newSize : Int) - limit), (pos : Int))

/-- The paste-trim step of WordCount.filterTransactionByLimit
(src/plugin-word-count.ts lines 60 to 77): mutate the pending transaction
by deleting the computed range, recompute the size on the mutated document,
and accept exactly when the recomputed size is within the limit. The
mutated transaction is returned alongside the decision, modelling the
in-place mutation. -/
def trimPaste (deleteRange : DeleteRangeFn) (mode : Mode) (limit : Int)
    (transaction : Transaction) (newSize : Nat) : Bool × Transaction :=
  let pos := transaction.headPos
  let r := trimRange limit newSize pos
  let mutated : Transaction := { transaction with doc := deleteRange transaction.doc r.1 r.2 }
  let updatedSize := characters mode mutated.doc
  (decide ((updatedSize : Int) ≤ limit), mutated)

/-- WordCount.filterTransactionByLimit (src/plugin-word-count.ts lines 32
to 77). The returned pair carries the boolean decision and the pending
transaction as it stands when the function returns (mutated only on the
paste-trim path). -/
def filterTransactionByLimit (deleteRange : DeleteRangeFn) (mode : Mode) (limit : Int)
    (transaction : Transaction) (stateDoc : PMDoc) : Bool × Transaction :=
  let oldSize := characters mode stateDoc
  let newSize := characters mode transaction.doc
  if (newSize : Int) ≤ limit then (true, transaction)
  else if (oldSize : Int) > limit ∧ (newSize : Int) > limit ∧ (newSize : Int) ≤ (oldSize : Int) then
    (true, transaction)
  else if (oldSize : Int) > limit ∧ (newSize : Int) > limit ∧ (newSize : Int) > (oldSize : Int) then
    (false, transaction)
  else if !transaction.pasteMeta then (false, transaction)
  else trimPaste deleteRange mode limit transaction newSize

/-- JavaScript truthiness of the limit option: null, undefined and 0 are
falsy, every other number including negative ones is truthy. -/
def limitTruthy : Option Int → Bool
  | none => false
  | some l => !(l == 0)

/-- The filterTransaction hook of wordCountPlugin (src/plugin-word-count.ts
lines 105 to 112): accept outright when nothing changed or the limit is
falsy, otherwise delegate to filterTransactionByLimit with the numeric
limit value. -/
def wcFilterTransaction (deleteRange : DeleteRangeFn) (opts : Options)
    (transaction : Transaction) (stateDoc : PMDoc) : Bool × Transaction :=
  if !transaction.docChanged || !limitTruthy opts.limit then (true, transaction)
  else filterTransactionByLimit deleteRange opts.mode (opts.limit.getD 0) transaction stateDoc

/-- The state init hook of wordCountPlugin (src/plugin-word-count.ts lines
118 to 121): the storage computed from the initial document. -/
def stateInit (opts : Options) (instanceDoc : PMDoc) : Storage :=
  calcStorage opts.mode instanceDoc

/-- The state apply hook of wordCountPlugin (src/plugin-word-count.ts lines
129 to 133): the JavaScript spread of the previous storage under the fresh
calcStorage of the post-edit document; both fields are overwritten. -/
def stateApply (opts : Options) (transaction : Transaction) (prev : Storage) : Storage :=
  { prev with
    characters := (calcStorage opts.mode transaction.doc).characters
    words := (calcStorage opts.mode transaction.doc).words }

/-- Outcome classification of the limit policy, written from the spec
wording (section 4.1, rules 1 to 5 in order, first match wins): accept by
rule 1 or 2, reject by rule 3 or 4, and only paste-tagged edits reach the
trim step. -/
inductive LimitOutcome where
  | accept
  | reject
  | trim
deriving DecidableEq

/-- Decision order as the spec states it: post-edit size within limit
accepts; shrinking while already over the limit accepts; growing while
already over the limit rejects; a non-paste edit rejects; what remains is
an over-limit paste, which goes to the trim step. -/
def specDecision (limit : Int) (oldSize newSize : Nat) (isPaste : Bool) : LimitOutcome :=
  if (newSize : Int) ≤ limit then .accept
  else if (oldSize : Int) > limit ∧ (newSize : Int) ≤ (oldSize : Int) then .accept
  else if (oldSize : Int) > limit ∧ (newSize : Int) > (oldSize : Int) then .reject
  else if !isPaste then .reject
  else .trim

end WordCount

namespace Toc

/-- A heading record extracted by Toc.updateToc (src/plugin-toc.ts lines
48 to 57): flattened text, level attribute and id attribute. -/
structure HeadingMatch where
  textContent : String
  level : Nat
  id : String
deriving DecidableEq

instance : Inhabited HeadingMatch := ⟨⟨"", 0, ""⟩⟩

/-- The pair returned by Toc.updateToc: the distinct heading levels in
first-seen order and the heading records in document order. -/
structure HeadingData where
  gradeType : List Nat
  headingMatches : List HeadingMatch
deriving DecidableEq

/-- Node type name as read through node.type.name; ProseMirror names text
nodes simply text. -/
def nodeName : PMNode → String
  | .text _ => "text"
  | .inlineLeaf n => n
  | .blockLeaf n => n
  | .textblock n _ _ => n
  | .blockCont n _ => n

/-- The level attribute of a node; only headings carry it, and only
headings are read, so other nodes default to zero. -/
def nodeLevel : PMNode → Nat
  | .textblock _ a _ => a.level
  | _ => 0

/-- The id attribute of a node; only headings carry it. -/
def nodeId : PMNode → String
  | .textblock _ a _ => a.id
  | _ => ""

/-- The filter of Toc.updateToc (src/plugin-toc.ts lines 43 to 47): a
top-level child qualifies when its type name is heading and its flattened
text is truthy, that is non-empty. -/
def qualifies (n : PMNode) : Bool :=
  nodeName n == "heading" && textContent n != ""

/-- The gradeType push of Toc.updateToc (src/plugin-toc.ts line 51): a
level is appended only when not already present. -/
def pushGrade (g : List Nat) (l : Nat) : List Nat :=
  if l ∈ g then g else g ++ [l]

/-- Toc.updateToc (src/plugin-toc.ts lines 40 to 59): filter the direct
top-level children of the document, collect the first-seen distinct levels,
and map each qualifying heading to its record in document order. -/
def updateToc (d : PMDoc) : HeadingData :=
  let qualified := d.children.filter qualifies
  { gradeType := qualified.foldl (fun g n => pushGrade g (nodeLevel n)) []
    headingMatches := qualified.map (fun n => ⟨textContent n, nodeLevel n, nodeId n⟩) }

/-- Lexicographic comparison of character lists by code point, modelling
the code-unit string comparison the JavaScript default sort comparator
performs. -/
def strLeChars : List Char → List Char → Bool
  | [], _ => true
  | _ :: _, [] => false
  | a :: as, b :: bs =>
    if a.toNat < b.toNat then true
    else if b.toNat < a.toNat then false
    else strLeChars as bs

/-- The default JavaScript array sort comparator applied to two numbers:
both are converted to their decimal strings and compared lexicographically. -/
def jsStrLe (a b : Nat) : Bool :=
  strLeChars (Nat.repr a).data (Nat.repr b).data

/-- The comparator as a relation, for the sort. -/
def jsLeProp (a b : Nat) : Prop := jsStrLe a b = true

instance : DecidableRel jsLeProp := fun a b => inferInstanceAs (Decidable (jsStrLe a b = true))

/-- Model of gradeType.sort() (src/plugin-toc.ts line 65): the default
Array.prototype.sort, a stable comparison sort under the string comparator. -/
def jsSort (l : List Nat) : List Nat := l.insertionSort jsLeProp

/-- Model of Array.prototype.indexOf: the index of the first occurrence,
or -1 when absent. -/
def jsIndexOf (l : List Nat) (x : Nat) : Int :=
  match l with
  | [] => -1
  | a :: rest =>
    if a = x then 0
    else
      let r := jsIndexOf rest x
      if r = -1 then -1 else r + 1

/-- A rendered visual record of one heading (resultData in Toc.rederToc,
src/plugin-toc.ts line 79). indentGrade is an Int because indexOf can
return -1 in JavaScript. -/
structure ResultData where
  textContent : String
  level : Nat
  id : String
  collapseAbility : Bool
  indentGrade : Int
deriving DecidableEq

instance : Inhabited ResultData := ⟨⟨"", 0, "", false, 0⟩⟩

/-- The three branches of the renderList diff in Toc.rederToc
(src/plugin-toc.ts lines 81 to 94): an id already present with an equal
record, an id present with a different record, and a new id. -/
inductive DiffClass where
  | unchanged
  | changed
  | added
deriving DecidableEq

instance : Inhabited DiffClass := ⟨.unchanged⟩

/-- The renderList mapping from heading id to last rendered record,
modelled as an association list in insertion order like a JavaScript
object with string keys. -/
abbrev RenderList := List (String × ResultData)

/-- Lookup of renderList at a key. -/
def rlGet : RenderList → String → Option ResultData
  | [], _ => none
  | p :: rest, k => if p.1 = k then some p.2 else rlGet rest k

/-- Assignment of renderList at a key: overwrite an existing entry in
place, or append a new entry at the end, like property assignment on a
JavaScript object. -/
def rlSet : RenderList → String → ResultData → RenderList
  | [], k, v => [(k, v)]
  | p :: rest, k, v => if p.1 = k then (k, v) :: rest else p :: rlSet rest k v

/-- The diff classification of Toc.rederToc for one freshly computed
record: lodash isEqual against the stored record decides unchanged versus
changed; a missing key is a new entry. -/
def classify (rl : RenderList) (rd : ResultData) : DiffClass :=
  match rlGet rl rd.id with
  | some prev => if prev = rd then .unchanged else .changed
  | none => .added

/-- The level of the heading at an index, with the default record for an
out-of-range index. -/
def levelAt (hs : List HeadingMatch) (i : Nat) : Nat := (hs.getD i default).level

/-- The id of the heading at an index. -/
def idAt (hs : List HeadingMatch) (i : Nat) : String := (hs.getD i default).id

/-- collapseAbility of Toc.rederToc (src/plugin-toc.ts lines 73 to 76):
the negation of: the index is the last one, or the next element exists and
the level is greater than or equal to the next level. -/
def collapseAbility (hs : List HeadingMatch) (index : Nat) (level : Nat) : Bool :=
  !((index == hs.length - 1) ||
    (decide (index + 1 < hs.length) && decide (level ≥ levelAt hs (index + 1))))

/-- The visual record computed for one heading in Toc.rederToc
(src/plugin-toc.ts lines 70 to 79): text, level and id are copied,
collapseAbility is computed from the neighbours, indentGrade is the sorted
gradeType indexOf the level, plus one. -/
def resultDataFor (sortedGrades : List Nat) (hs : List HeadingMatch) (index : Nat)
    (item : HeadingMatch) : ResultData :=
  { textContent := item.textContent
    level := item.level
    id := item.id
    collapseAbility := collapseAbility hs index item.level
    indentGrade := jsIndexOf sortedGrades item.level + 1 }

/-- The record computed at an index of the heading list. -/
def rdAt (sortedGrades : List Nat) (hs : List HeadingMatch) (i : Nat) : ResultData :=
  resultDataFor sortedGrades hs i (hs.getD i default)

/-- One iteration of the forEach body of Toc.rederToc (src/plugin-toc.ts
lines 67 to 118): compute the record, classify it against the renderList,
then store it at its id; the DOM construction is presentation and is not
modelled. -/
def renderStep (sorted : List Nat) (hs : List HeadingMatch)
    (acc : RenderList × List (ResultData × DiffClass)) (i : Nat) :
    RenderList × List (ResultData × DiffClass) :=
  let rd := rdAt sorted hs i
  let cls := classify acc.1 rd
  (rlSet acc.1 rd.id rd, acc.2 ++ [(rd, cls)])

/-- The forEach of Toc.rederToc over all heading indices in sequence
order, threading the renderList. -/
def renderPass (sorted : List Nat) (hs : List HeadingMatch) (rl : RenderList) :
    RenderList × List (ResultData × DiffClass) :=
  (List.range hs.length).foldl (renderStep sorted hs) (rl, [])

/-- Toc.rederToc (src/plugin-toc.ts lines 61 to 122): sort gradeType in
place with the default sort, then run the render pass. The returned
triple carries the sorted gradeType (the in-place mutation of the state),
the updated renderList and the per-heading records with their diff
classes. -/
def rederToc (data : HeadingData) (rl : RenderList) :
    List Nat × RenderList × List (ResultData × DiffClass) :=
  let sorted := jsSort data.gradeType
  let out := renderPass sorted data.headingMatches rl
  (sorted, out.1, out.2)

end Toc

/-- Modelled from the spec wording of claim C7: remove every later
duplicate, keeping the first occurrence of each value in order. -/
def firstSeen : List Nat → List Nat
  | [] => []
  | a :: l => a :: firstSeen (l.filter (fun x => x ≠ a))
termination_by l => l.length
decreasing_by
  simp only [List.length_cons]
  exact Nat.lt_succ_of_le (List.length_filter_le _ _)

mutual

/-- Spec-side flattening with no block separator: the text of every text
node in pre-order, with one space for each non-text leaf. This is the
amended description of the textSize metric. -/
def flatNoSep : PMNode → String
  | .text s => s
  | .inlineLeaf _ => " "
  | .blockLeaf _ => " "
  | .textblock _ _ cs => flatNoSepFrag cs
  | .blockCont _ cs => flatNoSepFrag cs

/-- Concatenated no-separator flattening of a fragment. -/
def flatNoSepFrag : List PMNode → String
  | [] => ""
  | n :: rest => flatNoSep n ++ flatNoSepFrag rest

end

/-- Spec-side no-separator flattening of a document. -/
def flatNoSepDoc (d : PMDoc) : String := flatNoSepFrag d.children

/-- Structural node size of the document node itself: content size plus
the two open and close tokens. -/
def docNodeSize (d : PMDoc) : Nat := 2 + fragSize d.children

mutual

/-- Written from the wording of claim C4: the inline runs of the document,
one string per textblock, gathered in document order. -/
def inlineRuns : PMNode → List String
  | .text _ => []
  | .inlineLeaf _ => []
  | .blockLeaf _ => []
  | .textblock _ _ cs => [textContentFrag cs]
  | .blockCont _ cs => inlineRunsFrag cs

/-- Inline runs of a fragment. -/
def inlineRunsFrag : List PMNode → List String
  | [] => []
  | n :: rest => inlineRuns n ++ inlineRunsFrag rest

end

/-- Written from the wording of claim C4: the flattened text of the
document where block boundaries contribute a single separator character
between inline runs. -/
def specFlattenSep (d : PMDoc) : String :=
  String.intercalate " " (inlineRunsFrag d.children)

/-- Heading attrs shorthand for the concrete documents below. -/
def mkAttrs (level : Nat) (id : String) : PMAttrs := { level := level, id := id }

/-- A paragraph with one text child. -/
def para (s : String) : PMNode := .textblock "paragraph" (mkAttrs 1 "") [.text s]

/-- A heading with one text child. -/
def hd (level : Nat) (id : String) (s : String) : PMNode :=
  .textblock "heading" (mkAttrs level id) [.text s]

/-- Two-paragraph document used to separate the two flattening readings. -/
def exDocC4 : PMDoc := ⟨[para "ab", para "cd"]⟩

/-- A deleteRange stand-in that leaves the document unchanged; the claims
that use it never reach the trim step. -/
def drId : WordCount.DeleteRangeFn := fun d _ _ => d

/-- Options with a negative limit, for the C5 counterexample. -/
def optsC5 : WordCount.Options := { limit := some (-1), mode := .textSize }

/-- Empty single-paragraph document. -/
def stC5 : PMDoc := ⟨[para ""]⟩

/-- A document-changing one-character edit. -/
def trC5 : WordCount.Transaction :=
  { doc := ⟨[para "a"]⟩, headPos := 2, pasteMeta := false, docChanged := true }

/-- Document with heading levels 1, 2, 1, for the collapsibility claims. -/
def docC1 : PMDoc := ⟨[hd 1 "a" "A", hd 2 "b" "B", hd 1 "c" "C"]⟩

/-- Document with heading levels 2, 4, 2, the indentation example. -/
def docC6 : PMDoc := ⟨[hd 2 "a" "A", hd 4 "b" "B", hd 2 "c" "C"]⟩

/-- A deleteRange stand-in returning a fixed three-character document,
used to exercise the trim step concretely. -/
def drC3 : WordCount.DeleteRangeFn := fun _ _ _ => ⟨[para "abc"]⟩

/-- Pre-edit document of the trim scenario, size 2. -/
def stC3 : PMDoc := ⟨[para "ab"]⟩

/-- Over-limit paste transaction of the trim scenario, size 5, head at the
end of the pasted text. -/
def trC3 : WordCount.Transaction :=
  { doc := ⟨[para "abcde"]⟩, headPos := 6, pasteMeta := true, docChanged := true }

/-- The document produced by applying deleteRange to the pending document
over the range the trim step computes: from headPos minus the overflow
newSize minus limit, up to headPos. -/
def trimmedDoc (deleteRange : WordCount.DeleteRangeFn) (mode : WordCount.Mode) (limit : Int)
    (tr : WordCount.Transaction) : PMDoc :=
  deleteRange tr.doc ((tr.headPos : Int) - ((WordCount.characters mode tr.doc : Int) - limit))
    (tr.headPos : Int)

/-- The pending transaction after the in-place trim mutation. -/
def trimmedTr (deleteRange : WordCount.DeleteRangeFn) (mode : WordCount.Mode) (limit : Int)
    (tr : WordCount.Transaction) : WordCount.Transaction :=
  { tr with doc := trimmedDoc deleteRange mode limit tr }

/-- A two-heading extraction with distinct ids, for the render stability
witness. -/
def dataC9 : Toc.HeadingData :=
  { gradeType := [2, 1], headingMatches := [⟨"A", 1, "a"⟩, ⟨"B", 2, "b"⟩] }

namespace Toc

/-- The string comparator is total. -/
theorem strLeChars_total : ∀ x y : List Char, strLeChars x y = true ∨ strLeChars y x = true := by
  intro x
  induction x with
  | nil => intro y; left; rfl
  | cons a as ih =>
    intro y
    cases y with
    | nil => right; rfl
    | cons b bs =>
      simp only [strLeChars]
      rcases Nat.lt_trichotomy a.toNat b.toNat with h | h | h
      · left; simp [h]
      · have h1 : ¬ a.toNat < b.toNat := by omega
        have h2 : ¬ b.toNat < a.toNat := by omega
        rcases ih bs with h3 | h3 <;> simp [h1, h2, h3]
      · right; simp [h, Nat.lt_asymm h]

/-- The string comparator is transitive. -/
theorem strLeChars_trans : ∀ x y z : List Char,
    strLeChars x y = true → strLeChars y z = true → strLeChars x z = true := by
  intro x
  induction x with
  | nil => intro y z _ _; rfl
  | cons a as ih =>
    intro y z hxy hyz
    cases y with
    | nil => simp [strLeChars] at hxy
    | cons b bs =>
      cases z with
      | nil => simp [strLeChars] at hyz
      | cons c cs =>
        simp only [strLeChars] at hxy hyz ⊢
        rcases Nat.lt_trichotomy a.toNat b.toNat with h1 | h1 | h1
        · rcases Nat.lt_trichotomy b.toNat c.toNat with h2 | h2 | h2
          · have : a.toNat < c.toNat := by omega
            simp [this]
          · have : a.toNat < c.toNat := by omega
            simp [this]
          · simp [Nat.lt_asymm h2, h2] at hyz
        · have hna : ¬ a.toNat < b.toNat := by omega
          have hnb : ¬ b.toNat < a.toNat := by omega
          rw [if_neg hna, if_neg hnb] at hxy
          rcases Nat.lt_trichotomy b.toNat c.toNat with h2 | h2 | h2
          · have : a.toNat < c.toNat := by omega
            simp [this]
          · have hnc : ¬ b.toNat < c.toNat := by omega
            have hnc2 : ¬ c.toNat < b.toNat := by omega
            rw [if_neg hnc, if_neg hnc2] at hyz
            have hac : ¬ a.toNat < c.toNat := by omega
            have hca : ¬ c.toNat < a.toNat := by omega
            rw [if_neg hac, if_neg hca]
            exact ih bs cs hxy hyz
          · rw [if_neg (by omega : ¬ b.toNat < c.toNat), if_pos h2] at hyz
            exact absurd hyz (by simp)
        · simp [Nat.lt_asymm h1, h1] at hxy

/-- Totality of the numeric comparator relation. -/
theorem jsLeProp_total : ∀ a b : Nat, jsLeProp a b ∨ jsLeProp b a := by
  intro a b
  exact strLeChars_total (Nat.repr a).data (Nat.repr b).data

/-- Transitivity of the numeric comparator relation. -/
theorem jsLeProp_trans : ∀ a b c : Nat, jsLeProp a b → jsLeProp b c → jsLeProp a c := by
  intro a b c hab hbc
  exact strLeChars_trans _ _ _ hab hbc

/-- On single-digit numbers the JavaScript string comparator agrees with
the numeric order. -/
theorem jsStrLe_digit : ∀ a < 10, ∀ b < 10, (jsStrLe a b = true ↔ a ≤ b) := by decide

/-- The sorted gradeType is a permutation of the original. -/
theorem jsSort_perm (l : List Nat) : (jsSort l).Perm l :=
  List.perm_insertionSort jsLeProp l

/-- The sorted gradeType is sorted under the string comparator. -/
theorem jsSort_sorted (l : List Nat) : List.Sorted jsLeProp (jsSort l) := by
  haveI : IsTotal Nat jsLeProp := ⟨jsLeProp_total⟩
  haveI : IsTrans Nat jsLeProp := ⟨jsLeProp_trans⟩
  exact List.sorted_insertionSort jsLeProp l

/-- Sorting an already sorted gradeType changes nothing; this is the
second render over the state object mutated in place by the first. -/
theorem jsSort_idem (l : List Nat) : jsSort (jsSort l) = jsSort l :=
  (jsSort_sorted l).insertionSort_eq

/-- A list sorted under the string comparator, with distinct single-digit
members, is strictly sorted numerically. -/
theorem sorted_lt_of_sorted_js : ∀ {l : List Nat}, List.Sorted jsLeProp l → l.Nodup →
    (∀ x ∈ l, x < 10) → List.Sorted (· < ·) l := by
  intro l
  induction l with
  | nil => intro _ _ _; exact List.sorted_nil
  | cons a t ih =>
    intro hs hn hb
    rw [List.sorted_cons] at hs ⊢
    rw [List.nodup_cons] at hn
    refine ⟨?_, ih hs.2 hn.2 (fun x hx => hb x (List.mem_cons_of_mem a hx))⟩
    intro b hbt
    have hab : a ≤ b := by
      have := hs.1 b hbt
      exact (jsStrLe_digit a (hb a (List.mem_cons_self a t)) b
        (hb b (List.mem_cons_of_mem a hbt))).1 this
    have hne : a ≠ b := fun h => hn.1 (h ▸ hbt)
    omega

/-- The sorted gradeType of a distinct single-digit level set is strictly
sorted numerically. -/
theorem jsSort_sorted_lt (l : List Nat) (hn : l.Nodup) (hb : ∀ x ∈ l, x < 10) :
    List.Sorted (· < ·) (jsSort l) := by
  refine sorted_lt_of_sorted_js (jsSort_sorted l) ?_ ?_
  · exact ((jsSort_perm l).nodup_iff).2 hn
  · intro x hx
    exact hb x ((jsSort_perm l).mem_iff.1 hx)

/-- In a strictly sorted list, indexOf of a member counts the smaller
members. -/
theorem jsIndexOf_sorted_lt : ∀ {l : List Nat}, List.Sorted (· < ·) l → ∀ {x : Nat}, x ∈ l →
    jsIndexOf l x = ((l.filter (fun y => y < x)).length : Int) := by
  intro l
  induction l with
  | nil => intro _ x hx; cases hx
  | cons a t ih =>
    intro hs x hx
    rw [List.sorted_cons] at hs
    rcases List.mem_cons.1 hx with rfl | hxt
    · have hft : t.filter (fun y => decide (y < x)) = [] :=
        List.filter_eq_nil_iff.2 (fun y hy => by
          have := hs.1 y hy
          simp only [decide_eq_true_eq]
          omega)
      have hfa : (x :: t).filter (fun y => decide (y < x)) = [] := by
        simp only [List.filter_cons]
        rw [if_neg (by simp)]
        exact hft
      rw [hfa]
      simp [jsIndexOf]
    · have hax : a < x := hs.1 x hxt
      have hne : a ≠ x := by omega
      have hlen := ih hs.2 hxt
      have hnneg : jsIndexOf t x ≠ -1 := by
        rw [hlen]
        omega
      have hstep : jsIndexOf (a :: t) x = jsIndexOf t x + 1 := by
        simp [jsIndexOf, hne, hnneg]
      rw [hstep, hlen]
      have hfc : (a :: t).filter (fun y => decide (y < x))
          = a :: t.filter (fun y => decide (y < x)) := by
        simp only [List.filter_cons]
        rw [if_pos (by simp [hax])]
      rw [hfc]
      simp only [List.length_cons]
      push_cast
      ring

end Toc

namespace Toc

/-- Membership in a pushGrade step. -/
theorem mem_pushGrade {g : List Nat} {a x : Nat} : x ∈ pushGrade g a ↔ x ∈ g ∨ x = a := by
  unfold pushGrade
  by_cases h : a ∈ g
  · rw [if_pos h]
    constructor
    · exact Or.inl
    · rintro (hx | rfl)
      · exact hx
      · exact h
  · rw [if_neg h]
    simp [List.mem_append]

/-- Membership in the gradeType fold: exactly the accumulator members and
the folded levels. -/
theorem mem_foldl_pushGrade : ∀ (ls acc : List Nat) (x : Nat),
    x ∈ ls.foldl pushGrade acc ↔ x ∈ acc ∨ x ∈ ls := by
  intro ls
  induction ls with
  | nil => intro acc x; simp
  | cons a t ih =>
    intro acc x
    rw [List.foldl_cons, ih, mem_pushGrade, List.mem_cons]
    tauto

/-- A pushGrade step preserves distinctness. -/
theorem nodup_pushGrade {g : List Nat} {a : Nat} (h : g.Nodup) : (pushGrade g a).Nodup := by
  unfold pushGrade
  by_cases ha : a ∈ g
  · rwa [if_pos ha]
  · rw [if_neg ha]
    simp [List.nodup_append, h, ha]

/-- The gradeType fold produces a distinct list. -/
theorem nodup_foldl_pushGrade : ∀ (ls acc : List Nat), acc.Nodup →
    (ls.foldl pushGrade acc).Nodup := by
  intro ls
  induction ls with
  | nil => intro acc h; exact h
  | cons a t ih =>
    intro acc h
    rw [List.foldl_cons]
    exact ih _ (nodup_pushGrade h)

/-- The gradeType fold computes the first-seen deduplication. -/
theorem foldl_pushGrade_eq_firstSeen : ∀ (ls acc : List Nat),
    ls.foldl pushGrade acc = acc ++ firstSeen (ls.filter (fun x => decide (x ∉ acc))) := by
  intro ls
  induction ls with
  | nil => intro acc; simp [firstSeen]
  | cons a t ih =>
    intro acc
    rw [List.foldl_cons]
    by_cases ha : a ∈ acc
    · rw [show pushGrade acc a = acc from if_pos ha, ih]
      have : (a :: t).filter (fun x => decide (x ∉ acc)) = t.filter (fun x => decide (x ∉ acc)) := by
        simp only [List.filter_cons]
        rw [if_neg (by simp [ha])]
      rw [this]
    · rw [show pushGrade acc a = acc ++ [a] from if_neg ha, ih]
      have hcons : (a :: t).filter (fun x => decide (x ∉ acc))
          = a :: t.filter (fun x => decide (x ∉ acc)) := by
        simp only [List.filter_cons]
        rw [if_pos (by simp [ha])]
      rw [hcons]
      rw [firstSeen]
      have hff : (t.filter (fun x => decide (x ∉ acc))).filter (fun x => decide (x ≠ a))
          = t.filter (fun x => decide (x ∉ acc ++ [a])) := by
        rw [List.filter_filter]
        apply List.filter_congr
        intro x _
        by_cases h1 : x = a <;> by_cases h2 : x ∈ acc <;> simp [h1, h2]
      rw [← hff]
      simp

/-- gradeType of updateToc, rewritten as a fold over the qualifying levels. -/
theorem updateToc_gradeType_eq (d : PMDoc) :
    (updateToc d).gradeType
      = ((d.children.filter qualifies).map nodeLevel).foldl pushGrade [] := by
  unfold updateToc
  rw [List.foldl_map]

/-- gradeType of updateToc holds distinct levels. -/
theorem updateToc_gradeType_nodup (d : PMDoc) : (updateToc d).gradeType.Nodup := by
  rw [updateToc_gradeType_eq]
  exact nodup_foldl_pushGrade _ _ List.nodup_nil

/-- gradeType of updateToc holds exactly the qualifying heading levels. -/
theorem mem_updateToc_gradeType (d : PMDoc) (x : Nat) :
    x ∈ (updateToc d).gradeType ↔ x ∈ (d.children.filter qualifies).map nodeLevel := by
  rw [updateToc_gradeType_eq, mem_foldl_pushGrade]
  simp

/-- The level of every extracted heading is a member of gradeType. -/
theorem level_mem_gradeType (d : PMDoc) (hm : HeadingMatch)
    (h : hm ∈ (updateToc d).headingMatches) : hm.level ∈ (updateToc d).gradeType := by
  rw [mem_updateToc_gradeType]
  unfold updateToc at h
  simp only at h
  obtain ⟨n, hn, rfl⟩ := List.mem_map.1 h
  exact List.mem_map.2 ⟨n, hn, rfl⟩

/-- Reading back the key just assigned on a renderList. -/
theorem rlGet_rlSet_self : ∀ (rl : RenderList) (k : String) (v : ResultData),
    rlGet (rlSet rl k v) k = some v := by
  intro rl k v
  induction rl with
  | nil => simp [rlSet, rlGet]
  | cons p rest ih =>
    by_cases h : p.1 = k
    · simp [rlSet, h, rlGet]
    · simp [rlSet, h, rlGet, ih]

/-- Reading another key after an assignment on a renderList. -/
theorem rlGet_rlSet_ne : ∀ (rl : RenderList) (k k2 : String) (v : ResultData), k2 ≠ k →
    rlGet (rlSet rl k v) k2 = rlGet rl k2 := by
  intro rl k k2 v hne
  induction rl with
  | nil =>
    simp only [rlSet, rlGet]
    rw [if_neg (fun h => hne h.symm)]
  | cons p rest ih =>
    by_cases h : p.1 = k
    · simp only [rlSet, if_pos h, rlGet]
      rw [if_neg (fun hx => hne hx.symm), if_neg (by rw [h]; exact fun hx => hne hx.symm)]
    · simp only [rlSet, if_neg h, rlGet]
      by_cases h3 : p.1 = k2
      · rw [if_pos h3, if_pos h3]
      · rw [if_neg h3, if_neg h3]
        exact ih

/-- The id of the computed record at an index is the heading id there. -/
theorem rdAt_id (sorted : List Nat) (hs : List HeadingMatch) (i : Nat) :
    (rdAt sorted hs i).id = idAt hs i := rfl

/-- Records produced by the render fold, in order: the computed record of
each processed index, appended to what was already there. -/
theorem renderFold_records (sorted : List Nat) (hs : List HeadingMatch) :
    ∀ (idxs : List Nat) (acc : RenderList × List (ResultData × DiffClass)),
    ((idxs.foldl (renderStep sorted hs) acc).2).map Prod.fst
      = acc.2.map Prod.fst ++ idxs.map (rdAt sorted hs) := by
  intro idxs
  induction idxs with
  | nil => intro acc; simp
  | cons i rest ih =>
    intro acc
    rw [List.foldl_cons, ih]
    simp [renderStep]

/-- Keys never assigned by the render fold keep their lookup. -/
theorem renderFold_rlGet_pres (sorted : List Nat) (hs : List HeadingMatch) :
    ∀ (idxs : List Nat) (acc : RenderList × List (ResultData × DiffClass)) (k : String),
    (∀ j ∈ idxs, idAt hs j ≠ k) →
    rlGet ((idxs.foldl (renderStep sorted hs) acc).1) k = rlGet acc.1 k := by
  intro idxs
  induction idxs with
  | nil => intro acc k _; rfl
  | cons i rest ih =>
    intro acc k h
    rw [List.foldl_cons]
    rw [ih _ k (fun j hj => h j (List.mem_cons_of_mem i hj))]
    exact rlGet_rlSet_ne _ _ _ _ (fun hx => h i (List.mem_cons_self i rest) hx.symm)

/-- After the render fold over indices with pairwise distinct ids, the
renderList maps the id of every processed index to its computed record. -/
theorem renderFold_rlGet_final (sorted : List Nat) (hs : List HeadingMatch) :
    ∀ (idxs : List Nat) (acc : RenderList × List (ResultData × DiffClass)),
    List.Pairwise (fun i j => idAt hs i ≠ idAt hs j) idxs →
    ∀ j ∈ idxs, rlGet ((idxs.foldl (renderStep sorted hs) acc).1) (idAt hs j)
      = some (rdAt sorted hs j) := by
  intro idxs
  induction idxs with
  | nil => intro acc _ j hj; cases hj
  | cons i rest ih =>
    intro acc hp j hj
    rw [List.pairwise_cons] at hp
    rw [List.foldl_cons]
    rcases List.mem_cons.1 hj with rfl | hjr
    · rw [renderFold_rlGet_pres sorted hs rest _ (idAt hs j)
        (fun j2 hj2 => (hp.1 j2 hj2).symm)]
      exact rlGet_rlSet_self _ _ _
    · exact ih _ hp.2 j hjr

/-- When the renderList already maps every pending id to the record about
to be computed, every pair the render fold appends is classified
unchanged. -/
theorem renderFold_unchanged (sorted : List Nat) (hs : List HeadingMatch) :
    ∀ (idxs : List Nat) (acc : RenderList × List (ResultData × DiffClass)),
    (∀ j ∈ idxs, rlGet acc.1 (idAt hs j) = some (rdAt sorted hs j)) →
    ∀ p ∈ (idxs.foldl (renderStep sorted hs) acc).2, p ∈ acc.2 ∨ p.2 = DiffClass.unchanged := by
  intro idxs
  induction idxs with
  | nil => intro acc _ p hp; exact Or.inl hp
  | cons i rest ih =>
    intro acc hmap p hp
    rw [List.foldl_cons] at hp
    have hcls : classify acc.1 (rdAt sorted hs i) = DiffClass.unchanged := by
      unfold classify
      rw [rdAt_id, hmap i (List.mem_cons_self i rest)]
      simp
    have hmap2 : ∀ j ∈ rest,
        rlGet ((renderStep sorted hs acc i).1) (idAt hs j) = some (rdAt sorted hs j) := by
      intro j hj
      show rlGet (rlSet acc.1 (rdAt sorted hs i).id (rdAt sorted hs i)) (idAt hs j) = _
      by_cases hid : idAt hs j = idAt hs i
      · rw [rdAt_id, hid, rlGet_rlSet_self]
        have e1 := hmap j (List.mem_cons_of_mem i hj)
        rw [hid] at e1
        rw [hmap i (List.mem_cons_self i rest)] at e1
        exact e1
      · rw [rlGet_rlSet_ne _ _ _ _ (by rw [rdAt_id]; exact hid)]
        exact hmap j (List.mem_cons_of_mem i hj)
    rcases ih (renderStep sorted hs acc i) hmap2 p hp with hin | hun
    · show p ∈ acc.2 ∨ _
      have : p ∈ acc.2 ++ [(rdAt sorted hs i, classify acc.1 (rdAt sorted hs i))] := hin
      rcases List.mem_append.1 this with h1 | h2
      · exact Or.inl h1
      · right
        have := List.mem_singleton.1 h2
        rw [this, hcls]
    · exact Or.inr hun

/-- Distinct heading ids give pairwise distinct ids over the index range. -/
theorem pairwise_idAt_range (hs : List HeadingMatch)
    (h : (hs.map HeadingMatch.id).Nodup) :
    List.Pairwise (fun i j => idAt hs i ≠ idAt hs j) (List.range hs.length) := by
  rw [List.pairwise_iff_getElem]
  intro i j hi hj hij
  simp only [List.getElem_range]
  have hi2 : i < hs.length := by simpa using hi
  have hj2 : j < hs.length := by simpa using hj
  intro heq
  have e1 : idAt hs i = hs[i].id := by
    unfold idAt
    rw [List.getD_eq_getElem hs default hi2]
  have e2 : idAt hs j = hs[j].id := by
    unfold idAt
    rw [List.getD_eq_getElem hs default hj2]
  have inj := List.nodup_iff_injective_getElem.1 h
  have him : i < (hs.map HeadingMatch.id).length := by simpa using hi2
  have hjm : j < (hs.map HeadingMatch.id).length := by simpa using hj2
  have : (⟨i, him⟩ : Fin (hs.map HeadingMatch.id).length) = ⟨j, hjm⟩ := by
    apply inj
    simp only [List.getElem_map]
    rw [← e1, ← e2, heq]
  have : i = j := congrArg Fin.val this
  omega

end Toc

mutual

/-- With an empty block separator the textBetween walk of a node appends
exactly the no-separator flattening and leaves the first flag alone. -/
theorem tbNode_noSep : ∀ (n : PMNode) (acc : String × Bool),
    tbNode "" " " n acc = (acc.1 ++ flatNoSep n, acc.2)
  | .text s, acc => rfl
  | .inlineLeaf nm, acc => rfl
  | .blockLeaf nm, acc => rfl
  | .textblock nm a cs, acc => by
    have h : tbNode "" " " (.textblock nm a cs) acc = tbFrag "" " " cs acc := rfl
    rw [h, tbFrag_noSep cs acc]
    rfl
  | .blockCont nm cs, acc => by
    have h : tbNode "" " " (.blockCont nm cs) acc = tbFrag "" " " cs acc := rfl
    rw [h, tbFrag_noSep cs acc]
    rfl

/-- With an empty block separator the textBetween walk of a fragment
appends exactly the no-separator flattening and leaves the first flag
alone. -/
theorem tbFrag_noSep : ∀ (l : List PMNode) (acc : String × Bool),
    tbFrag "" " " l acc = (acc.1 ++ flatNoSepFrag l, acc.2)
  | [], acc => by
    show acc = (acc.1 ++ "", acc.2)
    rw [String.append_empty]
  | n :: rest, acc => by
    have h : tbFrag "" " " (n :: rest) acc = tbFrag "" " " rest (tbNode "" " " n acc) := rfl
    rw [h, tbNode_noSep n acc, tbFrag_noSep rest _]
    show (_, acc.2) = (_, acc.2)
    rw [String.append_assoc]
    rfl

end

namespace WordCount

/-- The source decision procedure agrees with the spec decision order:
accepting outcomes return true with the transaction untouched, rejecting
outcomes return false with the transaction untouched, and the remaining
over-limit pastes are handed to the trim step. -/
theorem filterTBL_eq (dr : DeleteRangeFn) (mode : Mode) (l : Int) (tr : Transaction)
    (st : PMDoc) :
    filterTransactionByLimit dr mode l tr st =
      match specDecision l (characters mode st) (characters mode tr.doc) tr.pasteMeta with
      | .accept => (true, tr)
      | .reject => (false, tr)
      | .trim => trimPaste dr mode l tr (characters mode tr.doc) := by
  simp only [filterTransactionByLimit, specDecision]
  generalize (characters mode st) = o
  generalize (characters mode tr.doc) = n
  by_cases h1 : ((n : Int) ≤ l)
  · rw [if_pos h1, if_pos h1]
  · rw [if_neg h1, if_neg h1]
    by_cases h2 : ((o : Int) > l)
    · by_cases h3 : ((n : Int) ≤ (o : Int))
      · have cL : (o : Int) > l ∧ (n : Int) > l ∧ (n : Int) ≤ (o : Int) := ⟨h2, by omega, h3⟩
        have cR : (o : Int) > l ∧ (n : Int) ≤ (o : Int) := ⟨h2, h3⟩
        rw [if_pos cL, if_pos cR]
      · have cL : ¬((o : Int) > l ∧ (n : Int) > l ∧ (n : Int) ≤ (o : Int)) :=
          fun hc => h3 hc.2.2
        have cR : ¬((o : Int) > l ∧ (n : Int) ≤ (o : Int)) := fun hc => h3 hc.2
        have dL : (o : Int) > l ∧ (n : Int) > l ∧ (n : Int) > (o : Int) :=
          ⟨h2, by omega, by omega⟩
        have dR : (o : Int) > l ∧ (n : Int) > (o : Int) := ⟨h2, by omega⟩
        rw [if_neg cL, if_neg cR, if_pos dL, if_pos dR]
    · have cL : ¬((o : Int) > l ∧ (n : Int) > l ∧ (n : Int) ≤ (o : Int)) := fun hc => h2 hc.1
      have cR : ¬((o : Int) > l ∧ (n : Int) ≤ (o : Int)) := fun hc => h2 hc.1
      have dL : ¬((o : Int) > l ∧ (n : Int) > l ∧ (n : Int) > (o : Int)) := fun hc => h2 hc.1
      have dR : ¬((o : Int) > l ∧ (n : Int) > (o : Int)) := fun hc => h2 hc.1
      rw [if_neg cL, if_neg cR, if_neg dL, if_neg dR]
      cases hp : tr.pasteMeta
      · rw [if_pos (show (!false) = true from rfl), if_pos (show (!false) = true from rfl)]
      · rw [if_neg (show ¬((!true) = true) from by simp),
          if_neg (show ¬((!true) = true) from by simp)]

/-- Reaching the trim step pins down the sizes: the post-edit size exceeds
the limit, the pre-edit size did not, and the edit carries the paste tag. -/
theorem specDecision_eq_trim_iff (l : Int) (o n : Nat) (p : Bool) :
    specDecision l o n p = .trim ↔ ((n : Int) > l ∧ (o : Int) ≤ l ∧ p = true) := by
  unfold specDecision
  split_ifs with h1 h2 h3 h4
  · simp only [reduceCtorEq, false_iff]
    omega
  · simp only [reduceCtorEq, false_iff]
    omega
  · simp only [reduceCtorEq, false_iff]
    omega
  · simp only [reduceCtorEq, false_iff]
    intro hc
    rcases hc with ⟨hn, ho, hp⟩
    rw [hp] at h4
    simp at h4
  · simp only [true_iff]
    refine ⟨by omega, ?_, ?_⟩
    · by_contra ho
      rcases Int.le_total (n : Int) (o : Int) with hno | hno
      · exact h2 ⟨by omega, hno⟩
      · exact h3 ⟨by omega, by omega⟩
    · cases hp : p
      · rw [hp] at h4
        simp at h4
      · rfl

end WordCount

namespace Toc

/-- The record at position i of a render pass is the computed record of
heading i. -/
theorem renderPass_record (sorted : List Nat) (hs : List HeadingMatch) (rl : RenderList)
    (i : Nat) (hi : i < hs.length) :
    (((renderPass sorted hs rl).2).map Prod.fst).getD i default = rdAt sorted hs i := by
  unfold renderPass
  rw [renderFold_records]
  simp only [List.map_nil, List.nil_append]
  have hlen : i < ((List.range hs.length).map (rdAt sorted hs)).length := by
    simpa using hi
  rw [List.getD_eq_getElem _ default hlen]
  simp

/-- The collapse flag of a computed record. -/
theorem rdAt_collapse (sorted : List Nat) (hs : List HeadingMatch) (i : Nat) :
    (rdAt sorted hs i).collapseAbility = collapseAbility hs i (levelAt hs i) := rfl

/-- The indent tier of a computed record. -/
theorem rdAt_indent (sorted : List Nat) (hs : List HeadingMatch) (i : Nat) :
    (rdAt sorted hs i).indentGrade = jsIndexOf sorted (levelAt hs i) + 1 := rfl

/-- The collapse flag of the source, characterised: a heading folds exactly
when it is not last and the next heading is strictly deeper. -/
theorem collapseAbility_iff (hs : List HeadingMatch) (i : Nat) (hi : i < hs.length) :
    collapseAbility hs i (levelAt hs i)
      = decide (i + 1 < hs.length ∧ levelAt hs i < levelAt hs (i + 1)) := by
  unfold collapseAbility
  by_cases h2 : i + 1 < hs.length
  · have hbeq : (i == hs.length - 1) = false := by
      rw [beq_eq_false_iff_ne]
      omega
    by_cases h3 : levelAt hs i < levelAt hs (i + 1)
    · have hge : ¬(levelAt hs i ≥ levelAt hs (i + 1)) := by omega
      simp [hbeq, h2, h3, hge]
    · have hge : levelAt hs i ≥ levelAt hs (i + 1) := by omega
      simp [hbeq, h2, h3, hge]
  · have hbeq : (i == hs.length - 1) = true := by
      rw [beq_iff_eq]
      omega
    simp [hbeq, h2]

/-- The indentGrade arithmetic: indexOf the level in the sorted distinct
single-digit level set, plus one, is one plus the number of strictly
smaller levels present. -/
theorem jsIndexOf_rank (g : List Nat) (x : Nat) (hn : g.Nodup) (hb : ∀ y ∈ g, y < 10)
    (hx : x ∈ g) :
    jsIndexOf (jsSort g) x + 1 = 1 + ((g.filter (fun y => decide (y < x))).length : Int) := by
  have hsort := jsSort_sorted_lt g hn hb
  have hmem : x ∈ jsSort g := (jsSort_perm g).mem_iff.2 hx
  rw [jsIndexOf_sorted_lt hsort hmem]
  have hperm := (jsSort_perm g).filter (fun y => decide (y < x))
  rw [hperm.length_eq]
  ring

end Toc

namespace Toc

/-- Rendering the same heading set twice, the second pass over the state
sorted in place by the first and over the persisted renderList, reproduces
every record and classifies every heading unchanged, provided ids are
distinct. -/
theorem second_render_stable (g : List Nat) (hs : List HeadingMatch) (rl0 : RenderList)
    (hids : (hs.map HeadingMatch.id).Nodup) :
    (((renderPass (jsSort (jsSort g)) hs ((renderPass (jsSort g) hs rl0).1)).2).map Prod.fst
        = ((renderPass (jsSort g) hs rl0).2).map Prod.fst)
      ∧ ∀ p ∈ (renderPass (jsSort (jsSort g)) hs ((renderPass (jsSort g) hs rl0).1)).2,
          p.2 = DiffClass.unchanged := by
  rw [jsSort_idem]
  constructor
  · show (((List.range hs.length).foldl (renderStep (jsSort g) hs)
        (((List.range hs.length).foldl (renderStep (jsSort g) hs) (rl0, [])).1, [])).2).map
          Prod.fst = _
    rw [renderFold_records]
    show _ = (((List.range hs.length).foldl (renderStep (jsSort g) hs) (rl0, [])).2).map Prod.fst
    rw [renderFold_records]
  · intro p hp
    have hpair := pairwise_idAt_range hs hids
    have hmap : ∀ j ∈ List.range hs.length,
        rlGet (((List.range hs.length).foldl (renderStep (jsSort g) hs) (rl0, [])).1)
          (idAt hs j) = some (rdAt (jsSort g) hs j) :=
      fun j hj =>
        renderFold_rlGet_final (jsSort g) hs (List.range hs.length) (rl0, []) hpair j hj
    have hres := renderFold_unchanged (jsSort g) hs (List.range hs.length)
      ((((List.range hs.length).foldl (renderStep (jsSort g) hs) (rl0, [])).1), []) hmap p hp
    rcases hres with h | h
    · cases h
    · exact h

end Toc

/-- Claim C1, counterexample: the claim asserts that for the level
sequence 1, 2, 1 heading 0 is not collapsible and heading 1 is
collapsible; rendering that sequence gives heading 0 the flag true and
heading 1 the flag false, because the source marks a heading collapsible
exactly when the next heading is strictly deeper. -/
theorem claim_C1_counterexample :
    ((Toc.rederToc (Toc.updateToc docC1) []).2.2.map Prod.fst).map Toc.ResultData.collapseAbility
      = [true, false, false] := by decide

/-- Claim C1, amended: in every rendered heading sequence the collapsible
flag of heading i is true exactly when the heading is not the last one and
the immediately following heading has a strictly greater level. -/
theorem claim_C1 (sorted : List Nat) (hs : List Toc.HeadingMatch) (rl : Toc.RenderList)
    (i : Nat) (hi : i < hs.length) :
    ((((Toc.renderPass sorted hs rl).2).map Prod.fst).getD i default).collapseAbility
      = decide (i + 1 < hs.length ∧ Toc.levelAt hs i < Toc.levelAt hs (i + 1)) := by
  rw [Toc.renderPass_record sorted hs rl i hi, Toc.rdAt_collapse]
  exact Toc.collapseAbility_iff hs i hi

/-- Claim C1 witness: on two headings of levels 1 and 2 the first is
collapsible. -/
theorem claim_C1_witness :
    ((((Toc.renderPass [1, 2] [⟨"A", 1, "a"⟩, ⟨"B", 2, "b"⟩] []).2).map Prod.fst).getD 0
        default).collapseAbility
      = decide (0 + 1 < ([⟨"A", 1, "a"⟩, ⟨"B", 2, "b"⟩] : List Toc.HeadingMatch).length
          ∧ Toc.levelAt [⟨"A", 1, "a"⟩, ⟨"B", 2, "b"⟩] 0
              < Toc.levelAt [⟨"A", 1, "a"⟩, ⟨"B", 2, "b"⟩] (0 + 1)) :=
  claim_C1 [1, 2] [⟨"A", 1, "a"⟩, ⟨"B", 2, "b"⟩] [] 0 (by decide)

/-- Claim C2: the accept and reject decisions of filterTransactionByLimit
follow the spec first-match order on oldSize and newSize; only paste-tagged
edits fall through to the trim step, and accepted or rejected transactions
are returned untouched. -/
theorem claim_C2 (deleteRange : WordCount.DeleteRangeFn) (mode : WordCount.Mode) (limit : Int)
    (tr : WordCount.Transaction) (stateDoc : PMDoc) :
    WordCount.filterTransactionByLimit deleteRange mode limit tr stateDoc =
      match WordCount.specDecision limit (WordCount.characters mode stateDoc)
          (WordCount.characters mode tr.doc) tr.pasteMeta with
      | .accept => (true, tr)
      | .reject => (false, tr)
      | .trim => WordCount.trimPaste deleteRange mode limit tr
          (WordCount.characters mode tr.doc) :=
  WordCount.filterTBL_eq deleteRange mode limit tr stateDoc

/-- Claim C3: an over-limit paste reaching the trim step mutates the
pending transaction by deleting the range from headPos minus the overflow
up to headPos, before the decision is returned, and is accepted exactly
when the size recomputed on the trimmed document is within the limit; the
mutation is applied to the returned transaction on both outcomes. -/
theorem claim_C3 (deleteRange : WordCount.DeleteRangeFn) (mode : WordCount.Mode) (limit : Int)
    (tr : WordCount.Transaction) (stateDoc : PMDoc)
    (h : WordCount.specDecision limit (WordCount.characters mode stateDoc)
      (WordCount.characters mode tr.doc) tr.pasteMeta = .trim) :
    (WordCount.filterTransactionByLimit deleteRange mode limit tr stateDoc).2
        = trimmedTr deleteRange mode limit tr
      ∧ ((WordCount.filterTransactionByLimit deleteRange mode limit tr stateDoc).1 = true
          ↔ (WordCount.characters mode (trimmedDoc deleteRange mode limit tr) : Int) ≤ limit) := by
  rw [WordCount.filterTBL_eq deleteRange mode limit tr stateDoc, h]
  constructor
  · rfl
  · show decide _ = true ↔ _
    rw [decide_eq_true_eq]
    exact Iff.rfl

/-- Claim C3 witness: limit 3, pre-edit size 2, pasted size 5, head at 6;
the trim step is reached, the concrete deleteRange yields a size 3
document, and the trimmed paste is accepted. -/
theorem claim_C3_witness :
    (WordCount.filterTransactionByLimit drC3 .textSize 3 trC3 stC3).2
        = trimmedTr drC3 .textSize 3 trC3
      ∧ ((WordCount.filterTransactionByLimit drC3 .textSize 3 trC3 stC3).1 = true
          ↔ (WordCount.characters .textSize (trimmedDoc drC3 .textSize 3 trC3) : Int) ≤ 3) :=
  claim_C3 drC3 .textSize 3 trC3 stC3 (by decide)

/-- Claim C4, counterexample: the claim reads the textSize metric as the
flattened text with one separator character between inline runs; on a
document of two paragraphs ab and cd the metric is 4 while the claimed
reading gives 5, because the source passes undefined as the block
separator to textBetween. -/
theorem claim_C4_counterexample :
    WordCount.characters .textSize exDocC4 ≠ (specFlattenSep exDocC4).length := by decide

/-- Claim C4, amended: under textSize the metric equals the length of the
flattened text where block boundaries contribute no separator and each
non-text leaf contributes a single space; under nodeSize it equals the
total structural node size of the document. -/
theorem claim_C4 (d : PMDoc) :
    WordCount.characters .textSize d = (flatNoSepDoc d).length
      ∧ WordCount.characters .nodeSize d = docNodeSize d := by
  constructor
  · show (textBetweenAll "" " " d).length = _
    unfold textBetweenAll flatNoSepDoc
    rw [tbFrag_noSep]
    simp
  · rfl

/-- Claim C5, counterexample: the claim says a non-positive configured
limit disables the policy; with limit -1 a document-changing one-character
edit is rejected, because JavaScript truthiness treats only 0, null and
undefined as absent and a negative limit is enforced. -/
theorem claim_C5_counterexample :
    (WordCount.wcFilterTransaction drId optsC5 trC5 stC5).1 = false := by decide

/-- Claim C5, amended: an edit is unconditionally accepted when it does
not change the document, or when the configured limit is absent or zero;
negative limits are not exempt. -/
theorem claim_C5 (deleteRange : WordCount.DeleteRangeFn) (opts : WordCount.Options)
    (tr : WordCount.Transaction) (stateDoc : PMDoc)
    (h : tr.docChanged = false ∨ opts.limit = none ∨ opts.limit = some 0) :
    WordCount.wcFilterTransaction deleteRange opts tr stateDoc = (true, tr) := by
  unfold WordCount.wcFilterTransaction
  rcases h with h | h | h
  · simp [h]
  · simp [h, WordCount.limitTruthy]
  · simp [h, WordCount.limitTruthy]

/-- Claim C5 witness: with no limit configured, a document-changing edit
is accepted. -/
theorem claim_C5_witness :
    WordCount.wcFilterTransaction drId { limit := none, mode := .textSize } trC5 stC5
      = (true, trC5) :=
  claim_C5 drId { limit := none, mode := .textSize } trC5 stC5 (Or.inr (Or.inl rfl))

/-- Claim C6: on every render pass the indent tier of each heading is the
1-based rank of its level in the ascending numeric sort of the distinct
level set, stated as one plus the number of strictly smaller levels
present; the hypothesis that levels are single digits is guaranteed by the
schema, which only produces heading levels 1 to 6, and is needed because
the source sorts with the default string comparator. -/
theorem claim_C6 (d : PMDoc) (rl : Toc.RenderList) (i : Nat)
    (hi : i < (Toc.updateToc d).headingMatches.length)
    (hb : ∀ x ∈ (Toc.updateToc d).gradeType, x < 10) :
    ((((Toc.rederToc (Toc.updateToc d) rl).2.2).map Prod.fst).getD i default).indentGrade
      = 1 + (((Toc.updateToc d).gradeType.filter
          (fun y => decide (y < Toc.levelAt (Toc.updateToc d).headingMatches i))).length : Int) := by
  have hrec : (((Toc.rederToc (Toc.updateToc d) rl).2.2).map Prod.fst).getD i default
      = Toc.rdAt (Toc.jsSort (Toc.updateToc d).gradeType) (Toc.updateToc d).headingMatches i :=
    Toc.renderPass_record _ _ rl i hi
  rw [hrec, Toc.rdAt_indent]
  apply Toc.jsIndexOf_rank
  · exact Toc.updateToc_gradeType_nodup d
  · exact hb
  · have hmem : (Toc.updateToc d).headingMatches.getD i default
        ∈ (Toc.updateToc d).headingMatches := by
      rw [List.getD_eq_getElem _ default hi]
      exact List.getElem_mem hi
    exact Toc.level_mem_gradeType d _ hmem

/-- Claim C6 witness: heading levels 2, 4, 2 in document order; the middle
heading, level 4, gets indent tier 2, that is one plus the one smaller
level present. -/
theorem claim_C6_witness :
    (1 < (Toc.updateToc docC6).headingMatches.length)
      ∧ (∀ x ∈ (Toc.updateToc docC6).gradeType, x < 10)
      ∧ ((((Toc.rederToc (Toc.updateToc docC6) []).2.2).map Prod.fst).getD 1 default).indentGrade
          = 1 + (((Toc.updateToc docC6).gradeType.filter
              (fun y => decide (y < Toc.levelAt (Toc.updateToc docC6).headingMatches 1))).length
                : Int) :=
  ⟨by decide, by decide, claim_C6 docC6 [] 1 (by decide) (by decide)⟩

/-- Claim C7: extraction scans only the direct top-level children, keeps
exactly the headings with non-empty flattened text, in document order with
their level and id attributes, and collects each level the first time it
is seen, in first-seen order; the level set is therefore duplicate-free. -/
theorem claim_C7 (d : PMDoc) :
    (Toc.updateToc d).headingMatches
        = (d.children.filter Toc.qualifies).map
            (fun n => (⟨textContent n, Toc.nodeLevel n, Toc.nodeId n⟩ : Toc.HeadingMatch))
      ∧ (Toc.updateToc d).gradeType
          = firstSeen ((Toc.updateToc d).headingMatches.map Toc.HeadingMatch.level)
      ∧ (Toc.updateToc d).gradeType.Nodup := by
  refine ⟨rfl, ?_, Toc.updateToc_gradeType_nodup d⟩
  have hmap : (Toc.updateToc d).headingMatches.map Toc.HeadingMatch.level
      = (d.children.filter Toc.qualifies).map Toc.nodeLevel := by
    show ((d.children.filter Toc.qualifies).map _).map Toc.HeadingMatch.level = _
    rw [List.map_map]
    rfl
  rw [Toc.updateToc_gradeType_eq, hmap, Toc.foldl_pushGrade_eq_firstSeen, List.nil_append]
  congr 1
  apply List.filter_eq_self.2
  intro a _
  simp

/-- Claim C8: the stored counter state is a pure full recomputation from
the post-edit document: the apply hook returns exactly calcStorage of the
new document, so its characters field is the configured metric of the
post-edit document, the init hook likewise on the initial document, and
the result never depends on the previous state. -/
theorem claim_C8 (opts : WordCount.Options) (tr : WordCount.Transaction)
    (prev : WordCount.Storage) (instanceDoc : PMDoc) :
    WordCount.stateApply opts tr prev = WordCount.calcStorage opts.mode tr.doc
      ∧ (WordCount.stateApply opts tr prev).characters = WordCount.characters opts.mode tr.doc
      ∧ (WordCount.stateInit opts instanceDoc).characters
          = WordCount.characters opts.mode instanceDoc
      ∧ ∀ p1 p2 : WordCount.Storage,
          WordCount.stateApply opts tr p1 = WordCount.stateApply opts tr p2 :=
  ⟨rfl, rfl, rfl, fun _ _ => rfl⟩

/-- Claim C9: rendering twice in succession with an unchanged heading set,
the second pass running over the state sorted in place by the first and
over the persisted renderList, reproduces every visual record and
classifies no heading as changed, provided heading ids are distinct. -/
theorem claim_C9 (data : Toc.HeadingData) (rl0 : Toc.RenderList)
    (hids : (data.headingMatches.map Toc.HeadingMatch.id).Nodup) :
    (((Toc.rederToc (Toc.HeadingData.mk (Toc.rederToc data rl0).1 data.headingMatches)
          ((Toc.rederToc data rl0).2.1)).2.2).map Prod.fst
        = ((Toc.rederToc data rl0).2.2).map Prod.fst)
      ∧ ∀ p ∈ (Toc.rederToc (Toc.HeadingData.mk (Toc.rederToc data rl0).1 data.headingMatches)
          ((Toc.rederToc data rl0).2.1)).2.2,
          p.2 = Toc.DiffClass.unchanged :=
  Toc.second_render_stable data.gradeType data.headingMatches rl0 hids

/-- Claim C9 witness: a concrete two-heading extraction with distinct ids;
the second render reproduces the records of the first. -/
theorem claim_C9_witness :
    ((Toc.rederToc (Toc.HeadingData.mk (Toc.rederToc dataC9 []).1 dataC9.headingMatches)
          ((Toc.rederToc dataC9 []).2.1)).2.2).map Prod.fst
        = ((Toc.rederToc dataC9 []).2.2).map Prod.fst :=
  (claim_C9 dataC9 [] (by decide)).1

/-- Claim C10: for every paste that reaches the trim step, under the shape
of a ProseMirror paste transaction, with the selection head at the end of
inserted content of position span s at a non-negative insertion position
(so s is at most headPos) and the metric growing by at most s, the
computed deletion range has a non-negative start and it does not exceed
its end, so deleteRange never receives a negative or inverted range. -/
theorem claim_C10 (limit : Int) (oldSize newSize pos span : Nat) (paste : Bool)
    (htrim : WordCount.specDecision limit oldSize newSize paste = .trim)
    (hgrow : (newSize : Int) ≤ (oldSize : Int) + (span : Int))
    (hhead : span ≤ pos) :
    0 ≤ (WordCount.trimRange limit newSize pos).1
      ∧ (WordCount.trimRange limit newSize pos).1 ≤ (WordCount.trimRange limit newSize pos).2 := by
  obtain ⟨h1, h2, _⟩ := (WordCount.specDecision_eq_trim_iff limit oldSize newSize paste).1 htrim
  constructor
  · show 0 ≤ (pos : Int) - ((newSize : Int) - limit)
    omega
  · show (pos : Int) - ((newSize : Int) - limit) ≤ (pos : Int)
    omega

/-- Claim C10 witness: limit 10, pre-edit size 8, post-edit size 15, head
at 12, pasted span 7; the range runs from 7 to 12. -/
theorem claim_C10_witness :
    0 ≤ (WordCount.trimRange 10 15 12).1
      ∧ (WordCount.trimRange 10 15 12).1 ≤ (WordCount.trimRange 10 15 12).2 :=
  claim_C10 10 8 15 12 7 true (by decide) (by decide) (by decide)
